import Mathlib

/-!
Verification development for the single source file src/main.py of the
ncm-artist-rss-tgbot repository.  Python strings are modelled as lists of
characters, the Redis dedup store as the list of keys that currently hold a
live entry, and every network effect as an explicit environment argument.
-/

set_option autoImplicit false

namespace NcmRss

abbrev Str := List Char

/-- One feed entry as produced by feedparser: a dictionary whose field reads
can fail, modelled with optional fields. -/
structure Entry where
  title : Option Str
  author : Option Str
  published : Option Str
  link : Option Str
  summary : Option Str
deriving DecidableEq

/-- Result of feedparser.parse: a dictionary that always carries an entries
list. -/
structure Feed where
  entries : List Entry
deriving DecidableEq

/-- One release record built by parse (src/main.py lines 66 to 74). -/
structure Item where
  title : Str
  author : Str
  published : Str
  link : Str
  album_id : Str
  cover : Str
deriving DecidableEq

/-- Length of the leading run of decimal digits of a text. -/
def digitRun : Str → Nat
  | [] => 0
  | c :: rest => if c.isDigit then digitRun rest + 1 else 0

/-- Model of re.search with the album id pattern of src/main.py line 72: the
leftmost position where at least 4 consecutive digits start wins, and the
greedy quantifier takes up to 15 digits from there. -/
def searchDigits : Str → Option Str
  | [] => none
  | c :: rest =>
    if 4 ≤ digitRun (c :: rest) then
      some ((c :: rest).take (min 15 (digitRun (c :: rest))))
    else searchDigits rest

/-- White space characters recognised by the regex white space class. -/
def isSpaceCh (c : Char) : Bool :=
  c == ' ' || c == '\t' || c == '\n' || c == '\r' || c == '\x0b' || c == '\x0c'

/-- One element of the cover pattern head: a literal character or the regex
dot, which matches every character except a newline. -/
inductive CPat
  | lit (c : Char)
  | dot
deriving DecidableEq

/-- Fixed head of the cover pattern of src/main.py line 73.  The dots around
music and 126 are unescaped in the source pattern, hence regex wildcards. -/
def coverHead : List CPat :=
  [CPat.lit 'h', CPat.lit 't', CPat.lit 't', CPat.lit 'p', CPat.lit 's',
   CPat.lit ':', CPat.lit '/', CPat.lit '/', CPat.lit 'p', CPat.lit '1',
   CPat.dot, CPat.lit 'm', CPat.lit 'u', CPat.lit 's', CPat.lit 'i',
   CPat.lit 'c', CPat.dot, CPat.lit '1', CPat.lit '2', CPat.lit '6',
   CPat.dot, CPat.lit 'n', CPat.lit 'e', CPat.lit 't', CPat.lit '/']

/-- Matching of the fixed pattern head against a text, returning the
remainder of the text on success. -/
def matchHead : List CPat → Str → Option Str
  | [], s => some s
  | _ :: _, [] => none
  | CPat.lit c :: ps, x :: s => if x = c then matchHead ps s else none
  | CPat.dot :: ps, x :: s => if x = '\n' then none else matchHead ps s

/-- Greedy tail of the cover pattern: the longest run of characters that are
neither a double quote nor white space. -/
def coverTail : Str → Str
  | [] => []
  | c :: rest => if c == '\"' || isSpaceCh c then [] else c :: coverTail rest

/-- Attempt of the cover pattern at the current position. -/
def matchCoverAt (s : Str) : Option Str :=
  match matchHead coverHead s with
  | none => none
  | some rest => some (s.take coverHead.length ++ coverTail rest)

/-- Model of re.search with the cover pattern of src/main.py line 73: the
leftmost matching position wins. -/
def searchCover : Str → Option Str
  | [] => none
  | c :: rest =>
    match matchCoverAt (c :: rest) with
    | some m => some m
    | none => searchCover rest

/-- Per entry try block of parse (src/main.py lines 65 to 77): every
dictionary access and every group call on a failed search raises, and the
except branch drops the entry. -/
def extractEntry (e : Entry) : Option Item :=
  match e.title, e.author, e.published, e.link with
  | some t, some a, some p, some l =>
    (match searchDigits l with
     | none => none
     | some aid =>
       match e.summary with
       | none => none
       | some s =>
         match searchCover s with
         | none => none
         | some cov => some ⟨t, a, p, l, aid, cov⟩)
  | _, _, _, _ => none

/-- Parse of src/main.py lines 60 to 80: entries are processed in order and
failing entries are skipped without aborting the batch. -/
def parse (f : Feed) : List Item := f.entries.filterMap extractEntry

/-- Counts reported by the log line at src/main.py lines 78 to 79: the
succeeded count and the total entry count. -/
def parseReport (f : Feed) : Nat × Nat := ((parse f).length, f.entries.length)

/-- A well formed entry in the sense of the specification: all required
fields are present and both the id pattern and the cover pattern match. -/
def entryOk (e : Entry) : Bool :=
  e.title.isSome && e.author.isSome && e.published.isSome &&
    (match e.link with
     | some l => (searchDigits l).isSome
     | none => false) &&
    (match e.summary with
     | some s => (searchCover s).isSome
     | none => false)

/-- Backslash character used as the escape marker. -/
def backslash : Char := '\\'

/-- Backtick character, written via its code point. -/
def backtickCh : Char := Char.ofNat 96

/-- Opening curly brace character, written via its code point. -/
def lbraceCh : Char := Char.ofNat 123

/-- Closing curly brace character, written via its code point. -/
def rbraceCh : Char := Char.ofNat 125

/-- Reserved character list of escape (src/main.py line 130). -/
def escape_chars : List Char :=
  ['_', '*', '[', ']', '(', ')', '~', backtickCh, '>', '#', '+', '-', '=',
   '|', lbraceCh, rbraceCh, '.', '!']

/-- Python str.replace for a single character pattern. -/
def replaceChar (c : Char) (repl : Str) : Str → Str
  | [] => []
  | x :: rest => (if x = c then repl else [x]) ++ replaceChar c repl rest

/-- Escape of src/main.py lines 129 to 133: one replace pass per reserved
character, in the listed order. -/
def escape (s : Str) : Str :=
  escape_chars.foldl (fun t c => replaceChar c [backslash, c] t) s

/-- Per character escaping over an arbitrary reserved character list. -/
def escWith (cs : List Char) : Str → Str
  | [] => []
  | x :: rest => (if x ∈ cs then [backslash, x] else [x]) ++ escWith cs rest

/-- Modelled from the words of the specification for the escaping
transform: each reserved character is prefixed with the escape marker,
independently per character. -/
def escapeSpec (s : Str) : Str := escWith escape_chars s

/-- Removal of one escape marker before each reserved character. -/
def unescape : Str → Str
  | [] => []
  | [x] => [x]
  | x :: y :: rest =>
    if x = backslash ∧ y ∈ escape_chars then y :: unescape rest
    else x :: unescape (y :: rest)

/-- Check that every occurrence of a reserved character is preceded by the
escape marker. -/
def allEscaped : Str → Bool
  | [] => true
  | [x] => !(decide (x ∈ escape_chars))
  | x :: y :: rest =>
    if x = backslash ∧ y ∈ escape_chars then allEscaped rest
    else !(decide (x ∈ escape_chars)) && allEscaped (y :: rest)

/-- Dedup store: the list of keys that currently hold a live entry. -/
abbrev Store := List Str

/-- Model of the Redis EXISTS lookup. -/
def storeExists (st : Store) (k : Str) : Bool := st.contains k

/-- Filter of src/main.py lines 148 to 151: one EXISTS read and no write;
the store state is returned unchanged. -/
def filter (st : Store) (item : Item) : Bool × Store :=
  (if storeExists st item.album_id then true else false, st)

/-- List comprehension of src/main.py line 178, with the store state
threaded through each filter call. -/
def filterItems (st : Store) : List Item → List Item × Store
  | [] => ([], st)
  | it :: rest =>
    let r1 := filter st it
    let r2 := filterItems r1.2 rest
    (if r1.1 then r2.1 else it :: r2.1, r2.2)

/-- Lookup of the global name rj_code used at src/main.py line 158.  The
module binds no such global, so evaluating the name raises NameError. -/
def rj_code : Option Str := none

/-- Loop of redis_set (src/main.py lines 155 to 164).  Every attempt
evaluates the unbound name rj_code before the store call can happen, the
resulting NameError is caught by the except branch, and the loop retries.
Returns the result, the store after the loop, and the number of attempts
made.  The branch for a bound rj_code is kept for completeness but is
unreachable. -/
def redis_setGo (st : Store) : Nat → Bool × Store × Nat
  | 0 => (false, st, 0)
  | n + 1 =>
    match rj_code with
    | some key => (true, key :: st, 1)
    | none =>
      let r := redis_setGo st n
      (r.1, r.2.1, r.2.2 + 1)

/-- The redis_set of src/main.py lines 154 to 166, with 5 attempts.  The
album_id argument only appears in log messages; the key handed to the store
call is the unbound name rj_code. -/
def redis_set (st : Store) (album_id : Str) : Bool × Store × Nat :=
  redis_setGo st 5

/-- Outcome of one fetch attempt: an exception inside the try block, or a
parsed feed value. -/
abbrev DlEnv := Nat → Except Unit Feed

/-- Python truthiness of the feedparser result: the returned dictionary
always carries entries and bozo keys, hence it is never empty and always
truthy. -/
def feedTruthy (_f : Feed) : Bool := true

/-- Loop of download (src/main.py lines 43 to 53) over the remaining retry
indices: on an exception the loop sleeps and retries, on a parsed result it
stores the value and breaks when the value is truthy.  Returns the last
stored result and the number of attempts made. -/
def downloadGo (env : DlEnv) : List Nat → Option Feed → Option Feed × Nat
  | [], acc => (acc, 0)
  | retry :: rest, acc =>
    match env retry with
    | Except.ok f =>
      if feedTruthy f then (some f, 1)
      else
        let r := downloadGo env rest (some f)
        (r.1, r.2 + 1)
    | Except.error _ =>
      let r := downloadGo env rest acc
      (r.1, r.2 + 1)

/-- Download of src/main.py lines 40 to 57: at most three attempts, then
the final truthiness check decides between returning and raising. -/
def download (env : DlEnv) : Except Unit Feed × Nat :=
  match downloadGo env [0, 1, 2] none with
  | (some f, a) => (if feedTruthy f then Except.ok f else Except.error (), a)
  | (none, a) => (Except.error (), a)

/-- Boolean success test for a download outcome. -/
def dlOk : Except Unit Feed → Bool
  | Except.ok _ => true
  | Except.error _ => false

/-- Which telegram endpoint send used. -/
inductive Branch
  | photo
  | text
deriving DecidableEq

/-- Acknowledgment handling shared by both send branches: an error value
covers a transport exception or a malformed acknowledgment, an ok value is
the truthiness of the ok field of the response. -/
def sendAck : Except Unit Bool → Bool
  | Except.ok b => b
  | Except.error _ => false

/-- Send of src/main.py lines 83 to 126: the photo branch is taken exactly
when the photo string is truthy, that is nonempty. -/
def send (resp : Except Unit Bool) (chat_id photo caption : Str) :
    Bool × Branch :=
  if photo = [] then (sendAck resp, Branch.text)
  else (sendAck resp, Branch.photo)

/-- Construct_params of src/main.py lines 136 to 145: the caption template
interpolates the escaped fields. -/
def construct_params (item : Item) : Str × Str × Str :=
  (item.cover,
   backslash :: '#' ::
     (item.album_id ++ '\n' :: '*' ::
       (escape item.title ++ '*' :: '\n' :: '\n' ::
         (escape item.author ++ '\n' :: '\n' :: escape item.link))),
   item.album_id)

/-- Base of the url built by rss_url_generator (src/main.py line 36). -/
def rssHubBase : String := "https://rsshub.app/ncm/artist/"

/-- Url of one source as derived by rss_url_generator. -/
def rss_url (artist_id : Str) : Str := rssHubBase.data ++ artist_id

/-- Observable events of one pass. -/
inductive Ev
  | fetch (artist : Str)
  | sendOk (album_id : Str)
  | sendFail (album_id : Str)
  | commit (album_id : Str) (ok : Bool)
deriving DecidableEq

/-- Name of the unbound global read by the send call at src/main.py
line 183. -/
def rssAuthorName : String := "rss_author"

/-- Unhandled Python exceptions that can escape main. -/
inductive PyErr
  | downloadFailed
  | nameError (g : String)
  | keyError
deriving DecidableEq

/-- Lookup of the global name rss_author used at src/main.py line 183.  The
module binds no such global. -/
def rss_author : Option Str := none

/-- Result of one pass: the events emitted, the final store state, and the
unhandled exception if one escaped main.  An error of none models the
process exiting with status 0; a some error models an unhandled traceback
and a nonzero exit status. -/
structure RunResult where
  trace : List Ev
  store : Store
  err : Option PyErr
deriving DecidableEq

/-- Environment of one pass: the configured artists in order, the download
attempt outcomes per source index, the store content at pass start, and the
telegram acknowledgment per album id. -/
structure Env where
  configs : List (Str × Str)
  dl : Nat → DlEnv
  store : Store
  sendResp : Str → Except Unit Bool

/-- Python dictionary lookup in CONFIGS. -/
def lookupConfig (configs : List (Str × Str)) (k : Str) : Option Str :=
  (configs.find? (fun p => p.1 == k)).map (fun p => p.2)

/-- Inner loop of main (src/main.py lines 181 to 185).  The send call at
line 183 evaluates the unbound global rss_author while building its first
argument, so the loop raises NameError on its first record; the branch for
a bound rss_author is kept for completeness but is unreachable. -/
def processItems (env : Env) (st : Store) :
    List Item → List Ev × Store × Option PyErr
  | [] => ([], st, none)
  | item :: rest =>
    let pca := construct_params item
    match rss_author with
    | none => ([], st, some (PyErr.nameError rssAuthorName))
    | some a =>
      match lookupConfig env.configs a with
      | none => ([], st, some PyErr.keyError)
      | some chat =>
        let sr := send (env.sendResp item.album_id) chat pca.1 pca.2.1
        if sr.1 then
          let cr := redis_set st pca.2.2
          let pr := processItems env cr.2.1 rest
          (Ev.sendOk pca.2.2 :: Ev.commit pca.2.2 cr.1 :: pr.1, pr.2)
        else
          let pr := processItems env st rest
          (Ev.sendFail pca.2.2 :: pr.1, pr.2)

/-- Outer loop of main (src/main.py lines 171 to 185).  The download call
at line 174 is not wrapped in a try block, so a download failure escapes
main and aborts the pass. -/
def processSources (env : Env) (st : Store) (idx : Nat) :
    List (Str × Str) → RunResult
  | [] => ⟨[], st, none⟩
  | (artist, _) :: rest =>
    match (download (env.dl idx)).1 with
    | Except.error _ => ⟨[Ev.fetch artist], st, some PyErr.downloadFailed⟩
    | Except.ok feed =>
      let fi := filterItems st (parse feed)
      match processItems env fi.2 fi.1 with
      | (evs, st2, some e) => ⟨Ev.fetch artist :: evs, st2, some e⟩
      | (evs, st2, none) =>
        let r := processSources env st2 (idx + 1) rest
        ⟨Ev.fetch artist :: (evs ++ r.trace), r.store, r.err⟩

/-- Main of src/main.py lines 169 to 186. -/
def main (env : Env) : RunResult := processSources env env.store 0 env.configs

/-- Records parsed from the feed of one source; empty when the download of
that source fails. -/
def srcParsed (env : Env) (i : Nat) : List Item :=
  match (download (env.dl i)).1 with
  | Except.ok f => parse f
  | Except.error _ => []

/-- Records of one source that survive the dedup filter against the given
store state. -/
def srcSurvivors (env : Env) (st : Store) (i : Nat) : List Item :=
  (srcParsed env i).filter (fun it => !(storeExists st it.album_id))

/-- All downloads of the pass succeed. -/
def dlAllOk (env : Env) : Bool :=
  (List.range env.configs.length).all (fun i => dlOk (download (env.dl i)).1)

/-- Some source has a record surviving the dedup filter. -/
def survivorsExist (env : Env) : Bool :=
  (List.range env.configs.length).any
    (fun i => !(srcSurvivors env env.store i).isEmpty)

/-- Every parsed record of every source already has a live store entry. -/
def allParsedInStore (env : Env) : Bool :=
  (List.range env.configs.length).all
    (fun i => (srcParsed env i).all (fun it => storeExists env.store it.album_id))

/-- No send event occurs in the trace. -/
def noSends (evs : List Ev) : Bool :=
  evs.all (fun e =>
    match e with
    | Ev.sendOk _ => false
    | Ev.sendFail _ => false
    | _ => true)

/-- Every commit event is immediately preceded by a successful send event
for the same album id, and no commit event appears elsewhere. -/
def commitsGuarded : List Ev → Bool
  | [] => true
  | Ev.sendOk a :: Ev.commit b _ :: rest => (a == b) && commitsGuarded rest
  | Ev.commit _ _ :: _ => false
  | _ :: rest => commitsGuarded rest

/-- No album id with a failed send has a commit event in the trace. -/
def failedUncommitted (evs : List Ev) : Bool :=
  evs.all (fun e =>
    match e with
    | Ev.sendFail a =>
      evs.all (fun e2 =>
        match e2 with
        | Ev.commit b _ => !(a == b)
        | _ => true)
    | _ => true)

/-- Short string constants used by the concrete test environments. -/
def sA : String := "a"

def sB : String := "b"

def sT : String := "T"

def sAu : String := "A"

def sP : String := "P"

def sOne : String := "1"

def sTwo : String := "2"

def linkStr : String := "x1234"

def aidStr : String := "1234"

def coverStr : String := "https://p1.music.126.net/a.jpg"

def bigIdStr : String := "123456789"

/-- Concrete entry with all required fields and both patterns matching. -/
def entry1 : Entry :=
  ⟨some sT.data, some sAu.data, some sP.data, some linkStr.data,
   some coverStr.data⟩

/-- Concrete feed with one valid entry. -/
def feed1 : Feed := ⟨[entry1]⟩

/-- The record that parse extracts from feed1. -/
def item1 : Item :=
  ⟨sT.data, sAu.data, sP.data, linkStr.data, aidStr.data, coverStr.data⟩

/-- Download environment whose attempts all fail. -/
def dlFailEnv : DlEnv := fun _ => Except.error ()

/-- Download environment whose attempts all return feed1. -/
def dlFeed1Env : DlEnv := fun _ => Except.ok feed1

/-- Environment with two sources whose first download always fails. -/
def cexEnv : Env :=
  ⟨[(sA.data, sOne.data), (sB.data, sTwo.data)],
   fun i => if i = 0 then dlFailEnv else dlFeed1Env,
   [],
   fun _ => Except.error ()⟩

/-- One source environment with an empty store, so the record survives the
dedup filter. -/
def envS : Env :=
  ⟨[(sA.data, sOne.data)], fun _ => dlFeed1Env, [], fun _ => Except.error ()⟩

/-- One source environment whose store already holds the album id of the
only record. -/
def envE : Env :=
  ⟨[(sA.data, sOne.data)], fun _ => dlFeed1Env, [aidStr.data],
   fun _ => Except.error ()⟩

/-- One source environment with a successful download of an empty feed. -/
def envOk : Env :=
  ⟨[(sA.data, sOne.data)], fun _ => fun _ => Except.ok ⟨[]⟩, [],
   fun _ => Except.error ()⟩

/-! Helper lemmas about the escaping transform. -/

theorem escWith_nil_chars (s : Str) : escWith [] s = s := by
  induction s with
  | nil => rfl
  | cons x rest ih => simp [escWith, ih]

theorem escWith_append (cs : List Char) (a b : Str) :
    escWith cs (a ++ b) = escWith cs a ++ escWith cs b := by
  induction a with
  | nil => rfl
  | cons x rest ih => simp [escWith, ih]

theorem escWith_replace (c : Char) (cs : List Char) (hb : backslash ∉ cs)
    (hc : c ∉ cs) (s : Str) :
    escWith cs (replaceChar c [backslash, c] s) = escWith (c :: cs) s := by
  induction s with
  | nil => rfl
  | cons x rest ih =>
    have hstep : escWith cs (if x = c then [backslash, c] else [x]) =
        if x ∈ c :: cs then [backslash, x] else [x] := by
      by_cases hx : x = c
      · subst hx; simp [escWith, hb, hc]
      · simp [escWith, List.mem_cons, hx]
    calc escWith cs (replaceChar c [backslash, c] (x :: rest))
        = escWith cs (if x = c then [backslash, c] else [x]) ++
            escWith cs (replaceChar c [backslash, c] rest) := by
          rw [replaceChar, escWith_append]
      _ = (if x ∈ c :: cs then [backslash, x] else [x]) ++
            escWith (c :: cs) rest := by rw [hstep, ih]
      _ = escWith (c :: cs) (x :: rest) := rfl

theorem foldl_replace (cs : List Char) (hb : backslash ∉ cs)
    (hn : cs.Nodup) (s : Str) :
    List.foldl (fun t c => replaceChar c [backslash, c] t) s cs =
      escWith cs s := by
  induction cs generalizing s with
  | nil => simpa using (escWith_nil_chars s).symm
  | cons c cs ih =>
    have hb2 : backslash ∉ cs := fun hmem => hb (List.mem_cons_of_mem c hmem)
    obtain ⟨hc, hn2⟩ := List.nodup_cons.mp hn
    rw [List.foldl_cons, ih hb2 hn2, escWith_replace c cs hb2 hc]

theorem escape_eq_escapeSpec (s : Str) : escape s = escapeSpec s :=
  foldl_replace escape_chars (by decide) (by decide) s

theorem escapeSpec_head (s : Str) (z : Char) (w : Str)
    (h : escapeSpec s = z :: w) : z ∉ escape_chars := by
  cases s with
  | nil => simp [escapeSpec, escWith] at h
  | cons x rest =>
    by_cases hx : x ∈ escape_chars
    · have he : escapeSpec (x :: rest) =
          backslash :: x :: escWith escape_chars rest := by
        simp [escapeSpec, escWith, hx]
      rw [he] at h
      have hz : z = backslash := (List.cons.injEq _ _ _ _).mp h |>.1 |>.symm
      rw [hz]
      decide
    · have he : escapeSpec (x :: rest) = x :: escWith escape_chars rest := by
        simp [escapeSpec, escWith, hx]
      rw [he] at h
      have hz : z = x := (List.cons.injEq _ _ _ _).mp h |>.1 |>.symm
      rw [hz]; exact hx

theorem escapeSpec_eq_nil (s : Str) (h : escapeSpec s = []) : s = [] := by
  cases s with
  | nil => rfl
  | cons x rest =>
    by_cases hx : x ∈ escape_chars <;> simp [escapeSpec, escWith, hx] at h

theorem allEscaped_escapeSpec (s : Str) : allEscaped (escapeSpec s) = true := by
  induction s with
  | nil => rfl
  | cons c rest ih =>
    by_cases hc : c ∈ escape_chars
    · have he : escapeSpec (c :: rest) = backslash :: c :: escapeSpec rest := by
        simp [escapeSpec, escWith, hc]
      rw [he]
      simpa [allEscaped, hc] using ih
    · have he : escapeSpec (c :: rest) = c :: escapeSpec rest := by
        simp [escapeSpec, escWith, hc]
      rw [he]
      cases hrest : escapeSpec rest with
      | nil => simp [allEscaped, hc]
      | cons z w =>
        have hz : z ∉ escape_chars := escapeSpec_head rest z w hrest
        have : allEscaped (c :: z :: w) =
            (!(decide (c ∈ escape_chars)) && allEscaped (z :: w)) := by
          rw [allEscaped, if_neg]
          intro hcontra
          exact hz hcontra.2
        rw [this, ← hrest]
        simp [hc, ih]

theorem unescape_escapeSpec (s : Str) : unescape (escapeSpec s) = s := by
  induction s with
  | nil => rfl
  | cons c rest ih =>
    by_cases hc : c ∈ escape_chars
    · have he : escapeSpec (c :: rest) = backslash :: c :: escapeSpec rest := by
        simp [escapeSpec, escWith, hc]
      rw [he]
      have : unescape (backslash :: c :: escapeSpec rest) =
          c :: unescape (escapeSpec rest) := by
        rw [unescape, if_pos ⟨rfl, hc⟩]
      rw [this, ih]
    · have he : escapeSpec (c :: rest) = c :: escapeSpec rest := by
        simp [escapeSpec, escWith, hc]
      rw [he]
      cases hrest : escapeSpec rest with
      | nil =>
        have : rest = [] := escapeSpec_eq_nil rest hrest
        rw [this]; rfl
      | cons z w =>
        have hz : z ∉ escape_chars := escapeSpec_head rest z w hrest
        have hun : unescape (c :: z :: w) = c :: unescape (z :: w) := by
          rw [unescape, if_neg]
          intro hcontra
          exact hz hcontra.2
        rw [hun, ← hrest, ih]

/-- C7: escape prefixes every occurrence of each reserved character with a
backslash, the escaped output contains no unescaped occurrence of a
reserved character, and removing one escape marker before each reserved
character recovers the original text. -/
theorem c7_escape_roundtrip (s : Str) :
    escape s = escapeSpec s ∧ allEscaped (escape s) = true
      ∧ unescape (escape s) = s := by
  have he := escape_eq_escapeSpec s
  refine ⟨he, ?_, ?_⟩ <;> rw [he]
  · exact allEscaped_escapeSpec s
  · exact unescape_escapeSpec s

/-! Helper lemmas about the extractor. -/

theorem extractEntry_isSome (e : Entry) :
    (extractEntry e).isSome = entryOk e := by
  obtain ⟨t, a, p, l, s⟩ := e
  cases t with
  | none => simp [extractEntry, entryOk]
  | some tv =>
    cases a with
    | none => simp [extractEntry, entryOk]
    | some av =>
      cases p with
      | none => simp [extractEntry, entryOk]
      | some pv =>
        cases l with
        | none => simp [extractEntry, entryOk]
        | some lv =>
          cases s with
          | none => cases hd : searchDigits lv <;>
              simp [extractEntry, entryOk, hd]
          | some sv => cases hd : searchDigits lv <;>
              cases hc : searchCover sv <;>
              simp [extractEntry, entryOk, hd, hc]

theorem parse_length_eq (l : List Entry) :
    (l.filterMap extractEntry).length = l.countP (fun e => entryOk e) := by
  induction l with
  | nil => rfl
  | cons e rest ih =>
    rw [List.countP_cons]
    cases h : extractEntry e with
    | none =>
      have hok : entryOk e = false := by rw [← extractEntry_isSome, h]; rfl
      simp [List.filterMap_cons, h, hok, ih]
    | some it =>
      have hok : entryOk e = true := by rw [← extractEntry_isSome, h]; rfl
      simp [List.filterMap_cons, h, hok, ih]

theorem countP_split (l : List Entry) :
    l.countP (fun e => entryOk e) + l.countP (fun e => !(entryOk e)) =
      l.length := by
  induction l with
  | nil => rfl
  | cons e rest ih =>
    by_cases h : entryOk e = true <;>
      simp [List.countP_cons, h] <;> omega

/-- C5: for a feed with N entries of which exactly K have all required
fields and matching id and cover patterns, parse returns exactly K records,
the reported counts give N minus K skipped entries, and parse is a total
function, so no per entry error propagates. -/
theorem c5_extractor_counts (f : Feed) :
    (parse f).length = f.entries.countP (fun e => entryOk e)
    ∧ f.entries.length - (parse f).length =
        f.entries.countP (fun e => !(entryOk e))
    ∧ parseReport f = ((parse f).length, f.entries.length) := by
  have h1 : (parse f).length = f.entries.countP (fun e => entryOk e) :=
    parse_length_eq f.entries
  have h2 := countP_split f.entries
  exact ⟨h1, by omega, rfl⟩

/-! Helper lemmas about the cover pattern. -/

theorem matchHead_le (ps : List CPat) :
    ∀ (s r : Str), matchHead ps s = some r → ps.length ≤ s.length := by
  induction ps with
  | nil => intro s r _; simp
  | cons p ps ih =>
    intro s r h
    cases s with
    | nil => cases p <;> simp [matchHead] at h
    | cons x s2 =>
      cases p with
      | lit c =>
        rw [matchHead] at h
        split at h
        · simpa using Nat.succ_le_succ (ih s2 r h)
        · simp at h
      | dot =>
        rw [matchHead] at h
        split at h
        · simp at h
        · simpa using Nat.succ_le_succ (ih s2 r h)

theorem matchCoverAt_ne_nil (s m : Str) (h : matchCoverAt s = some m) :
    m ≠ [] := by
  unfold matchCoverAt at h
  cases hm : matchHead coverHead s with
  | none => rw [hm] at h; simp at h
  | some rest =>
    rw [hm] at h
    have hm2 : s.take coverHead.length ++ coverTail rest = m :=
      Option.some.inj h
    have hlen : coverHead.length ≤ s.length := matchHead_le coverHead s rest hm
    intro h0
    have h1 : (s.take coverHead.length ++ coverTail rest).length = 0 := by
      rw [hm2, h0]; rfl
    rw [List.length_append, List.length_take, Nat.min_eq_left hlen] at h1
    have h25 : coverHead.length = 25 := by decide
    omega

theorem searchCover_ne_nil (s m : Str) (h : searchCover s = some m) :
    m ≠ [] := by
  induction s with
  | nil => simp [searchCover] at h
  | cons c rest ih =>
    rw [searchCover] at h
    cases hma : matchCoverAt (c :: rest) with
    | some m2 =>
      rw [hma] at h
      have := Option.some.inj h
      rw [← this]
      exact matchCoverAt_ne_nil _ _ hma
    | none =>
      rw [hma] at h
      exact ih h

theorem extractEntry_cover (e : Entry) (it : Item)
    (h : extractEntry e = some it) :
    ∃ sv cov, e.summary = some sv ∧ searchCover sv = some cov
      ∧ it.cover = cov := by
  obtain ⟨t, a, p, l, s⟩ := e
  cases t with
  | none => simp [extractEntry] at h
  | some tv =>
    cases a with
    | none => simp [extractEntry] at h
    | some av =>
      cases p with
      | none => simp [extractEntry] at h
      | some pv =>
        cases l with
        | none => simp [extractEntry] at h
        | some lv =>
          cases hd : searchDigits lv with
          | none => rw [extractEntry] at h; simp [hd] at h
          | some aid =>
            cases s with
            | none => rw [extractEntry] at h; simp [hd] at h
            | some sv =>
              cases hc : searchCover sv with
              | none => rw [extractEntry] at h; simp [hd, hc] at h
              | some cov =>
                rw [extractEntry] at h
                simp only [hd, hc] at h
                have := Option.some.inj h
                exact ⟨sv, cov, rfl, hc, by rw [← this]⟩

/-- C10: every record returned by parse has a nonempty cover field, hence
send always takes the photo branch on such a record and the text branch is
unreachable for extractor output. -/
theorem c10_parse_cover_photo (f : Feed) (it : Item) (h : it ∈ parse f)
    (resp : Except Unit Bool) (chat caption : Str) :
    it.cover ≠ [] ∧ (send resp chat it.cover caption).2 = Branch.photo := by
  have h2 : it ∈ f.entries.filterMap extractEntry := h
  obtain ⟨e, _, hex⟩ := List.mem_filterMap.mp h2
  obtain ⟨sv, cov, _, hcov, hcv⟩ := extractEntry_cover e it hex
  have hne : it.cover ≠ [] := by
    rw [hcv]; exact searchCover_ne_nil sv cov hcov
  exact ⟨hne, by simp [send, hne]⟩

/-- Witness for C10 at the concrete feed with one valid entry. -/
theorem c10_witness :
    item1.cover ≠ [] ∧
      (send (Except.error ()) [] item1.cover []).2 = Branch.photo :=
  c10_parse_cover_photo feed1 item1 (by decide) (Except.error ()) [] []

/-! Helper lemmas about the dedup filter. -/

theorem filter_spec (st : Store) (it : Item) :
    filter st it = (storeExists st it.album_id, st) := by
  by_cases h : storeExists st it.album_id = true <;> simp [filter, h]

theorem filterItems_spec (st : Store) (items : List Item) :
    filterItems st items =
      (items.filter (fun x => !(storeExists st x.album_id)), st) := by
  induction items with
  | nil => rfl
  | cons it rest ih =>
    by_cases h : storeExists st it.album_id = true <;>
      simp [filterItems, filter_spec, ih, List.filter_cons, h]

/-- C8: the dedup filter reports a record as already sent exactly when the
store has a live entry for its album id, and the partition step mutates
nothing: the store state is returned unchanged by filter and by the list
comprehension over it. -/
theorem c8_filter_readonly (st : Store) (it : Item) (items : List Item) :
    (filter st it).1 = storeExists st it.album_id
    ∧ (filter st it).2 = st
    ∧ filterItems st items =
        (items.filter (fun x => !(storeExists st x.album_id)), st) := by
  refine ⟨?_, ?_, filterItems_spec st items⟩ <;> rw [filter_spec]

/-! Helper lemmas about the commit recorder. -/

theorem redis_setGo_spec (st : Store) (n : Nat) :
    redis_setGo st n = (false, st, n) := by
  induction n with
  | zero => rfl
  | succ k ih => simp [redis_setGo, rj_code, ih]

/-- C1: evaluation of the commit recorder.  Every attempt of redis_set
evaluates the unbound global rj_code and raises NameError, which the except
branch catches, so no key is ever written: the store is unchanged, the
function returns false, and in particular the id of a just delivered record
is never recorded.  This contradicts the intended contract stated by the
specification. -/
theorem c1_commit_writes_nothing (st : Store) (aid : Str) :
    (redis_set st aid).1 = false ∧ (redis_set st aid).2.1 = st
    ∧ redis_set [] bigIdStr.data = (false, [], 5)
    ∧ storeExists (redis_set [] bigIdStr.data).2.1 bigIdStr.data = false := by
  refine ⟨?_, ?_, by decide, by decide⟩ <;> simp [redis_set, redis_setGo_spec]

/-! Helper lemmas about the fetcher. -/

theorem download_spec (env : DlEnv) :
    (download env).2 ≤ 3
    ∧ (dlOk (download env).1 = false →
        (download env).2 = 3 ∧ dlOk (env 0) = false ∧ dlOk (env 1) = false
          ∧ dlOk (env 2) = false) := by
  cases h0 : env 0 <;> cases h1 : env 1 <;> cases h2 : env 2 <;>
    simp [download, downloadGo, dlOk, feedTruthy, h0, h1, h2]

/-- C6: the fetcher makes at most 3 attempts and raises its failure error
only after all 3 attempts fail, and the commit recorder makes at most 5
attempts before giving up and returning false. -/
theorem c6_retry_bounds (env : DlEnv) (st : Store) (aid : Str) :
    ((download env).2 ≤ 3
      ∧ (dlOk (download env).1 = false →
          (download env).2 = 3 ∧ dlOk (env 0) = false ∧ dlOk (env 1) = false
            ∧ dlOk (env 2) = false))
    ∧ (redis_set st aid).2.2 ≤ 5 ∧ (redis_set st aid).1 = false := by
  refine ⟨download_spec env, ?_, ?_⟩ <;> simp [redis_set, redis_setGo_spec]

/-- Witness for C6 at a download environment whose attempts all fail. -/
theorem c6_witness :
    (download dlFailEnv).2 = 3 ∧ dlOk (dlFailEnv 0) = false
      ∧ dlOk (dlFailEnv 1) = false ∧ dlOk (dlFailEnv 2) = false :=
  (c6_retry_bounds dlFailEnv [] []).1.2 (by decide)

/-! Helper lemmas about the orchestrator. -/

theorem isEmpty_true_iff (l : List Item) : l.isEmpty = true ↔ l = [] := by
  cases l <;> simp

theorem processItems_eq (env : Env) (st : Store) (l : List Item) :
    processItems env st l =
      ([], st,
        if l.isEmpty then none else some (PyErr.nameError rssAuthorName)) := by
  cases l with
  | nil => rfl
  | cons it rest => simp [processItems, rss_author]

theorem ps_cons (env : Env) (st : Store) (idx : Nat) (a aid : Str)
    (rest : List (Str × Str)) :
    processSources env st idx ((a, aid) :: rest) =
      match (download (env.dl idx)).1 with
      | Except.error _ => ⟨[Ev.fetch a], st, some PyErr.downloadFailed⟩
      | Except.ok feed =>
        if ((parse feed).filter
              (fun x => !(storeExists st x.album_id))).isEmpty then
          ⟨Ev.fetch a :: (processSources env st (idx + 1) rest).trace,
           (processSources env st (idx + 1) rest).store,
           (processSources env st (idx + 1) rest).err⟩
        else ⟨[Ev.fetch a], st, some (PyErr.nameError rssAuthorName)⟩ := by
  rw [processSources]
  cases hdl : (download (env.dl idx)).1 with
  | error er => rfl
  | ok feed =>
    simp only [filterItems_spec, processItems_eq]
    by_cases hemp :
        ((parse feed).filter (fun x => !(storeExists st x.album_id))).isEmpty =
          true
    · simp [hemp]
    · simp [hemp]

theorem ps_cons_dlfail (env : Env) (st : Store) (idx : Nat) (a aid : Str)
    (rest : List (Str × Str)) (er : Unit)
    (h : (download (env.dl idx)).1 = Except.error er) :
    processSources env st idx ((a, aid) :: rest) =
      ⟨[Ev.fetch a], st, some PyErr.downloadFailed⟩ := by
  rw [ps_cons, h]

theorem ps_cons_ok_empty (env : Env) (st : Store) (idx : Nat) (a aid : Str)
    (rest : List (Str × Str)) (feed : Feed)
    (h : (download (env.dl idx)).1 = Except.ok feed)
    (hemp : ((parse feed).filter
      (fun x => !(storeExists st x.album_id))).isEmpty = true) :
    processSources env st idx ((a, aid) :: rest) =
      ⟨Ev.fetch a :: (processSources env st (idx + 1) rest).trace,
       (processSources env st (idx + 1) rest).store,
       (processSources env st (idx + 1) rest).err⟩ := by
  rw [ps_cons, h]
  simp [hemp]

theorem ps_cons_ok_nonempty (env : Env) (st : Store) (idx : Nat)
    (a aid : Str) (rest : List (Str × Str)) (feed : Feed)
    (h : (download (env.dl idx)).1 = Except.ok feed)
    (hemp : ((parse feed).filter
      (fun x => !(storeExists st x.album_id))).isEmpty = false) :
    processSources env st idx ((a, aid) :: rest) =
      ⟨[Ev.fetch a], st, some (PyErr.nameError rssAuthorName)⟩ := by
  rw [ps_cons, h]
  simp [hemp]

theorem ps_store (env : Env) (cfgs : List (Str × Str)) (idx : Nat)
    (st : Store) : (processSources env st idx cfgs).store = st := by
  induction cfgs generalizing idx with
  | nil => rfl
  | cons hd rest ih =>
    obtain ⟨a, aid⟩ := hd
    rw [ps_cons]
    cases hdl : (download (env.dl idx)).1 with
    | error er => rfl
    | ok feed =>
      by_cases hemp :
          ((parse feed).filter
            (fun x => !(storeExists st x.album_id))).isEmpty = true
      · simp [hemp, ih]
      · simp [hemp]

theorem ps_trace_fetch (env : Env) (cfgs : List (Str × Str)) (idx : Nat)
    (st : Store) :
    ∀ e ∈ (processSources env st idx cfgs).trace, ∃ a, e = Ev.fetch a := by
  induction cfgs generalizing idx with
  | nil => intro e he; simp [processSources] at he
  | cons hd rest ih =>
    obtain ⟨a, aid⟩ := hd
    cases hdl : (download (env.dl idx)).1 with
    | error er =>
      rw [ps_cons_dlfail env st idx a aid rest er hdl]
      intro e he
      simp at he
      exact ⟨a, he⟩
    | ok feed =>
      cases hemp : ((parse feed).filter
          (fun x => !(storeExists st x.album_id))).isEmpty with
      | true =>
        rw [ps_cons_ok_empty env st idx a aid rest feed hdl hemp]
        intro e he
        rcases List.mem_cons.mp he with h1 | h1
        · exact ⟨a, h1⟩
        · exact ih (idx + 1) e h1
      | false =>
        rw [ps_cons_ok_nonempty env st idx a aid rest feed hdl hemp]
        intro e he
        simp at he
        exact ⟨a, he⟩

theorem ps_err_spec (env : Env) (cfgs : List (Str × Str)) (idx : Nat)
    (st : Store)
    (hdl : ∀ i, i < cfgs.length →
      dlOk (download (env.dl (idx + i))).1 = true) :
    ((processSources env st idx cfgs).err = none ∨
      (processSources env st idx cfgs).err =
        some (PyErr.nameError rssAuthorName))
    ∧ ((processSources env st idx cfgs).err = none ↔
        ∀ i, i < cfgs.length → srcSurvivors env st (idx + i) = []) := by
  revert hdl
  induction cfgs generalizing idx with
  | nil => intro hdl; simp [processSources]
  | cons hd rest ih =>
    intro hdl
    obtain ⟨a, aid⟩ := hd
    have h0 : dlOk (download (env.dl idx)).1 = true := by
      have := hdl 0 (by simp)
      simpa using this
    cases hdl0 : (download (env.dl idx)).1 with
    | error er => rw [hdl0] at h0; simp [dlOk] at h0
    | ok feed =>
      have hsurv0 : srcSurvivors env st idx =
          (parse feed).filter (fun x => !(storeExists st x.album_id)) := by
        simp [srcSurvivors, srcParsed, hdl0]
      have hdl2 : ∀ i, i < rest.length →
          dlOk (download (env.dl (idx + 1 + i))).1 = true := by
        intro i hi
        have h3 := hdl (i + 1) (by simp; omega)
        have harith : idx + (i + 1) = idx + 1 + i := by omega
        rwa [harith] at h3
      have hrec := ih (idx + 1) hdl2
      cases hemp : ((parse feed).filter
          (fun x => !(storeExists st x.album_id))).isEmpty with
      | true =>
        rw [ps_cons_ok_empty env st idx a aid rest feed hdl0 hemp]
        have hse : srcSurvivors env st idx = [] := by
          rw [hsurv0]; exact (isEmpty_true_iff _).mp hemp
        obtain ⟨hcase, hiff⟩ := hrec
        refine ⟨hcase, ?_⟩
        rw [hiff]
        constructor
        · intro hall i hi
          cases i with
          | zero => simpa using hse
          | succ j =>
            have hj : j < rest.length := by simp at hi; omega
            have h4 := hall j hj
            rw [show idx + (j + 1) = idx + 1 + j by omega]
            exact h4
        · intro hall j hj
          have h4 := hall (j + 1) (by simp; omega)
          rw [show idx + 1 + j = idx + (j + 1) by omega]
          exact h4
      | false =>
        rw [ps_cons_ok_nonempty env st idx a aid rest feed hdl0 hemp]
        refine ⟨Or.inr rfl, ?_⟩
        constructor
        · intro h; simp at h
        · intro hall
          exfalso
          have h0s := hall 0 (by simp)
          rw [Nat.add_zero, hsurv0] at h0s
          rw [h0s] at hemp
          exact Bool.noConfusion hemp

theorem ps_err_none_dl (env : Env) (cfgs : List (Str × Str)) (idx : Nat)
    (st : Store) (h : (processSources env st idx cfgs).err = none) :
    ∀ i, i < cfgs.length → dlOk (download (env.dl (idx + i))).1 = true := by
  revert h
  induction cfgs generalizing idx with
  | nil => intro h i hi; simp at hi
  | cons hd rest ih =>
    obtain ⟨a, aid⟩ := hd
    cases hdl0 : (download (env.dl idx)).1 with
    | error er =>
      rw [ps_cons_dlfail env st idx a aid rest er hdl0]
      intro h
      simp at h
    | ok feed =>
      cases hemp : ((parse feed).filter
          (fun x => !(storeExists st x.album_id))).isEmpty with
      | true =>
        rw [ps_cons_ok_empty env st idx a aid rest feed hdl0 hemp]
        intro h i hi
        cases i with
        | zero => rw [Nat.add_zero, hdl0]; rfl
        | succ j =>
          have hj : j < rest.length := by simp at hi; omega
          have h4 := ih (idx + 1) (by simpa using h) j hj
          rw [show idx + (j + 1) = idx + 1 + j by omega]
          exact h4
      | false =>
        rw [ps_cons_ok_nonempty env st idx a aid rest feed hdl0 hemp]
        intro h
        simp at h

theorem dlAllOk_iff (env : Env) :
    dlAllOk env = true ↔
      ∀ i, i < env.configs.length → dlOk (download (env.dl i)).1 = true := by
  unfold dlAllOk
  rw [List.all_eq_true]
  constructor
  · intro h i hi
    exact h i (List.mem_range.mpr hi)
  · intro h i hmem
    exact h i (List.mem_range.mp hmem)

theorem survivorsExist_iff (env : Env) :
    survivorsExist env = true ↔
      ∃ i, i < env.configs.length ∧ srcSurvivors env env.store i ≠ [] := by
  unfold survivorsExist
  rw [List.any_eq_true]
  constructor
  · rintro ⟨i, hmem, hb⟩
    refine ⟨i, List.mem_range.mp hmem, ?_⟩
    intro hnil
    rw [hnil] at hb
    simp at hb
  · rintro ⟨i, hi, hne⟩
    refine ⟨i, List.mem_range.mpr hi, ?_⟩
    cases hs : srcSurvivors env env.store i with
    | nil => exact absurd hs hne
    | cons x xs => simp

theorem allParsedInStore_iff (env : Env) :
    allParsedInStore env = true ↔
      ∀ i, i < env.configs.length →
        ∀ it ∈ srcParsed env i, storeExists env.store it.album_id = true := by
  unfold allParsedInStore
  rw [List.all_eq_true]
  constructor
  · intro h i hi it hit
    have h2 := h i (List.mem_range.mpr hi)
    rw [List.all_eq_true] at h2
    exact h2 it hit
  · intro h i hmem
    rw [List.all_eq_true]
    intro it hit
    exact h i (List.mem_range.mp hmem) it hit

theorem filter_nil_of_all (l : List Item) (p : Item → Bool)
    (h : ∀ x ∈ l, p x = false) : l.filter p = [] := by
  induction l with
  | nil => rfl
  | cons x rest ih =>
    simp [List.filter_cons, h x (List.mem_cons_self x rest),
      ih (fun y hy => h y (List.mem_cons_of_mem _ hy))]

theorem noSends_of_fetch (l : List Ev)
    (h : ∀ e ∈ l, ∃ a, e = Ev.fetch a) : noSends l = true := by
  unfold noSends
  rw [List.all_eq_true]
  intro e he
  obtain ⟨a, rfl⟩ := h e he
  rfl

theorem commitsGuarded_of_fetch (l : List Ev)
    (h : ∀ e ∈ l, ∃ a, e = Ev.fetch a) : commitsGuarded l = true := by
  induction l with
  | nil => rfl
  | cons e rest ih =>
    obtain ⟨a, rfl⟩ := h e (List.mem_cons_self e rest)
    have hred : commitsGuarded (Ev.fetch a :: rest) = commitsGuarded rest :=
      rfl
    rw [hred]
    exact ih (fun e2 he2 => h e2 (List.mem_cons_of_mem _ he2))

theorem failedUncommitted_of_fetch (l : List Ev)
    (h : ∀ e ∈ l, ∃ a, e = Ev.fetch a) : failedUncommitted l = true := by
  unfold failedUncommitted
  rw [List.all_eq_true]
  intro e he
  obtain ⟨a, rfl⟩ := h e he
  rfl

theorem main_trace_fetch (env : Env) :
    ∀ e ∈ (main env).trace, ∃ a, e = Ev.fetch a :=
  ps_trace_fetch env env.configs 0 env.store

/-- C2 counterexample: in a concrete pass with two configured sources whose
first download fails all its attempts, main aborts with the unhandled
download exception, the second source is never fetched, and the process
does not exit with status 0, refuting log and skip to the next source. -/
theorem c2_counterexample :
    (main cexEnv).err = some PyErr.downloadFailed
    ∧ Ev.fetch sA.data ∈ (main cexEnv).trace
    ∧ Ev.fetch sB.data ∉ (main cexEnv).trace := by decide

/-- C2 as amended: a pass completes without an unhandled exception only if
every configured sources download succeeds; a download failure propagates
out of main uncaught and aborts the pass instead of being logged and
skipped. -/
theorem c2_download_failure_aborts (env : Env)
    (h : (main env).err = none) : dlAllOk env = true := by
  rw [dlAllOk_iff]
  intro i hi
  have h2 := ps_err_none_dl env env.configs 0 env.store h i hi
  simpa using h2

/-- Witness for the amended C2 at a pass whose single download succeeds. -/
theorem c2_witness : (main envOk).err = none ∧ dlAllOk envOk = true :=
  ⟨by decide, c2_download_failure_aborts envOk (by decide)⟩

/-- C3: whenever all downloads succeed and at least one record survives the
dedup filter, the pass raises the unhandled NameError for the unbound
global rss_author before any message is delivered; a pass whose surviving
record set is empty completes normally. -/
theorem c3_name_error_on_survivors (env : Env) (hdl : dlAllOk env = true) :
    (survivorsExist env = true →
      (main env).err = some (PyErr.nameError rssAuthorName)
        ∧ noSends (main env).trace = true)
    ∧ (survivorsExist env = false → (main env).err = none) := by
  have hdl0 : ∀ i, i < env.configs.length →
      dlOk (download (env.dl (0 + i))).1 = true := by
    intro i hi
    have h2 := (dlAllOk_iff env).mp hdl i hi
    simpa using h2
  have hs := ps_err_spec env env.configs 0 env.store hdl0
  constructor
  · intro hex
    obtain ⟨i, hi, hne⟩ := (survivorsExist_iff env).mp hex
    have herr : (main env).err ≠ none := by
      intro h0
      apply hne
      have h3 := (hs.2.mp h0) i hi
      simpa using h3
    refine ⟨?_, noSends_of_fetch _ (main_trace_fetch env)⟩
    rcases hs.1 with hc | hc
    · exact absurd hc herr
    · exact hc
  · intro hno
    apply hs.2.mpr
    intro i hi
    rw [Nat.zero_add]
    by_contra hne
    have h3 : survivorsExist env = true :=
      (survivorsExist_iff env).mpr ⟨i, hi, hne⟩
    rw [h3] at hno
    exact Bool.noConfusion hno

/-- Witness for C3: a pass with one surviving record raises the NameError,
and the same pass with the id already stored completes normally. -/
theorem c3_witness :
    ((main envS).err = some (PyErr.nameError rssAuthorName)
      ∧ noSends (main envS).trace = true)
    ∧ (main envE).err = none :=
  ⟨(c3_name_error_on_survivors envS (by decide)).1 (by decide),
   (c3_name_error_on_survivors envE (by decide)).2 (by decide)⟩

/-- C4: when the store already holds a live entry for the id of every
record extracted from every feed of the pass, the full pass completes,
delivers zero messages and never invokes the notifier. -/
theorem c4_full_store_no_delivery (env : Env) (hdl : dlAllOk env = true)
    (hall : allParsedInStore env = true) :
    (main env).err = none ∧ noSends (main env).trace = true := by
  have hdl0 : ∀ i, i < env.configs.length →
      dlOk (download (env.dl (0 + i))).1 = true := by
    intro i hi
    have h2 := (dlAllOk_iff env).mp hdl i hi
    simpa using h2
  have hs := ps_err_spec env env.configs 0 env.store hdl0
  have h1 := (allParsedInStore_iff env).mp hall
  refine ⟨?_, noSends_of_fetch _ (main_trace_fetch env)⟩
  apply hs.2.mpr
  intro i hi
  rw [Nat.zero_add]
  unfold srcSurvivors
  apply filter_nil_of_all
  intro it hit
  have h2 := h1 i hi it hit
  simp [h2]

/-- Witness for C4 at a pass whose only record id is already stored. -/
theorem c4_witness :
    (main envE).err = none ∧ noSends (main envE).trace = true :=
  c4_full_store_no_delivery envE (by decide) (by decide)

/-- C9: in every pass, a commit event can only occur immediately after a
successful send event for the same record, an album id with a failed send
is never committed, and the store is unchanged by the pass.  The guard in
the source makes this structural; in the present code both send and commit
are in fact unreachable, so the trace holds no such events at all. -/
theorem c9_commit_only_after_send (env : Env) :
    commitsGuarded (main env).trace = true
    ∧ failedUncommitted (main env).trace = true
    ∧ (main env).store = env.store :=
  ⟨commitsGuarded_of_fetch _ (main_trace_fetch env),
   failedUncommitted_of_fetch _ (main_trace_fetch env),
   ps_store env env.configs 0 env.store⟩

end NcmRss
